import Mathlib

set_option maxRecDepth 8000

/-!
Shallow embedding of the servo-config-tool core (src/stlink.rs,
src/controller_commands.rs, src/controller_interface.rs).

Remote target memory is modelled as a function from byte addresses to byte
values.  The probe operations `get_mem32` / `set_mem32` / `get_mem16`
(src/stlink.rs) are modelled as functions that either produce a result and the
USB transport events they issue, or `none` when one of the source's `assert!`
preconditions fails (a Rust panic happens before any transport traffic).
Machine `u32` arithmetic is modelled on `Nat` with explicit `% 2^32` at the
points where the source performs wrapping `u32` addition/multiplication.
`f32` fields are modelled by their 4-byte bit patterns (a `Nat` below `2^32`);
the code never computes with float values, it only moves their bytes.
-/

namespace ServoTool

/-- A byte of target memory (value expected below 256; the embedding never
depends on the bound). -/
abbrev Byte := Nat

/-- Target memory: byte address to byte value. -/
abbrev Mem := Nat → Byte

/-- Little-endian bytes of the low 32 bits of `x`, as produced by
`u32::to_le_bytes` in the command frames of src/stlink.rs. -/
def le32 (x : Nat) : List Byte :=
  [x % 256, x / 256 % 256, x / 65536 % 256, x / 16777216 % 256]

/-- Recompose a 32-bit little-endian value from the first four bytes of a
list; this is how a `u32` field of a `#[repr(C)]` struct is reinterpreted
from the raw byte buffer in `read_struct` (src/stlink.rs line 400). -/
def fromLe32 (b : List Byte) : Nat :=
  b.getD 0 0 + 256 * b.getD 1 0 + 65536 * b.getD 2 0 + 16777216 * b.getD 3 0

/-- The `u32` word at field index `i` (byte offset `4*i`) of a raw struct
byte buffer. -/
def word (b : List Byte) (i : Nat) : Nat :=
  fromLe32 ((b.drop (4 * i)).take 4)

/-- STLINK_MAXIMUM_TRANSFER_SIZE (src/stlink.rs line 275). -/
def STLINK_MAXIMUM_TRANSFER_SIZE : Nat := 1024

/-- Events on the USB bulk transport (src/stlink.rs `read`/`write`).
`read n` records the length of the receive buffer handed to
`STLink::read`, whose assertions require `64 ≤ n` and `n % 4 = 0`. -/
inductive UsbEvent where
  | write (bytes : List Byte)
  | read (bufLen : Nat)
  deriving DecidableEq, Repr

/-- The fixed 16-byte command frame built by `STLink::transfer`
(src/stlink.rs line 152): the command bytes padded with trailing zeros. -/
def cmdFrame (cmd : List Byte) : List Byte :=
  cmd ++ List.replicate (16 - cmd.length) 0

/-- Precondition asserted by `STLink::read` on its receive buffer
(src/stlink.rs lines 127-128). -/
def readBufOk (n : Nat) : Prop := 64 ≤ n ∧ n % 4 = 0

instance : DecidablePred readBufOk := fun n => by
  unfold readBufOk; infer_instance

/-- Receive-buffer length allocated by `get_mem32` (src/stlink.rs line 324):
`size.max(64)`. -/
def getMem32RxLen (size : Nat) : Nat := max size 64

/-- Receive-buffer length allocated by `get_mem16` (src/stlink.rs line 358):
exactly `size`. -/
def getMem16RxLen (size : Nat) : Nat := size

/-- Receive-buffer length used by `leave_state`, `set_swd_freq`,
`enter_debug_swd` and `debug_resetsys` (src/stlink.rs lines 283-311):
a fixed `[0u8; 64]`. -/
def fixedRxLen : Nat := 64

/-- The `assert!` preconditions of `get_mem32`/`set_mem32`
(src/stlink.rs lines 316-318 and 337-339). -/
def mem32Ok (addr size : Nat) : Prop :=
  addr % 4 = 0 ∧ size % 4 = 0 ∧ size ≤ STLINK_MAXIMUM_TRANSFER_SIZE

instance (addr size : Nat) : Decidable (mem32Ok addr size) := by
  unfold mem32Ok; infer_instance

/-- The `assert!` preconditions of `get_mem16` (src/stlink.rs lines 350-352). -/
def mem16Ok (addr size : Nat) : Prop :=
  addr % 2 = 0 ∧ size % 2 = 0 ∧ size ≤ STLINK_MAXIMUM_TRANSFER_SIZE

instance (addr size : Nat) : Decidable (mem16Ok addr size) := by
  unfold mem16Ok; infer_instance

/-- The bytes an idealized probe returns for a read of `len` bytes at `addr`. -/
def readBytes (mem : Mem) (addr len : Nat) : List Byte :=
  (List.range len).map fun i => mem (addr + i)

/-- `STLink::get_mem32` (src/stlink.rs lines 314-331): asserts 4-byte
alignment of address and size and the maximum transfer size, then writes the
READMEM_32BIT command frame and reads the response into a buffer of
`size.max(64)` bytes.  A failed assertion is a panic: no result, no events. -/
def getMem32 (mem : Mem) (addr size : Nat) : Option (List Byte) × List UsbEvent :=
  if mem32Ok addr size then
    (some (readBytes mem addr size),
     [UsbEvent.write (cmdFrame ([0xf2, 0x07] ++ le32 addr ++ le32 size)),
      UsbEvent.read (getMem32RxLen size)])
  else (none, [])

/-- A single remote memory store: `data` placed at byte addresses
`[addr, addr + data.length)`. -/
structure MemWrite where
  addr : Nat
  data : List Byte
  deriving DecidableEq, Repr

/-- Apply one store to the memory. -/
def applyWrite (mem : Mem) (w : MemWrite) : Mem :=
  fun a => if w.addr ≤ a ∧ a < w.addr + w.data.length then w.data.getD (a - w.addr) 0 else mem a

/-- `STLink::set_mem32` (src/stlink.rs lines 333-346): asserts 4-byte
alignment of address and data length and the maximum transfer size, then
writes the WRITEMEM_32BIT command frame followed by the payload. -/
def setMem32 (mem : Mem) (addr : Nat) (data : List Byte) : Option Mem × List UsbEvent :=
  if mem32Ok addr data.length then
    (some (applyWrite mem ⟨addr, data⟩),
     [UsbEvent.write (cmdFrame ([0xf2, 0x08] ++ le32 addr ++ le32 data.length)),
      UsbEvent.write data])
  else (none, [])

/-- `STLink::get_mem16` (src/stlink.rs lines 348-365): asserts 2-byte
alignment, then transfers; its receive buffer is exactly `size` bytes. -/
def getMem16 (mem : Mem) (addr size : Nat) : Option (List Byte) × List UsbEvent :=
  if mem16Ok addr size then
    (some (readBytes mem addr size),
     [UsbEvent.write (cmdFrame ([0xf2, 0x47] ++ le32 addr ++ le32 size)),
      UsbEvent.read (getMem16RxLen size)])
  else (none, [])

/-!
The chunking loop shared by `read_struct`, `read_struct_array`,
`read_struct_array_with_offset`, `write_struct_array` and
`write_struct_array_offset` (src/stlink.rs lines 386-398, 416-428, 448-460,
488-498, 508-518):

    loop {
        let n = len.min(STLINK_MAXIMUM_TRANSFER_SIZE);
        <issue request of n bytes at addr + offset>;
        if len < STLINK_MAXIMUM_TRANSFER_SIZE { break; }
        len -= STLINK_MAXIMUM_TRANSFER_SIZE;
        offset += STLINK_MAXIMUM_TRANSFER_SIZE;
    }

`chunkAux` runs this loop with a fuel argument; `len` strictly decreases by
1024 on every continued iteration, so fuel `len` always suffices.
-/

/-- One step list of (request address, request size) pairs issued by the
chunking loop, with explicit fuel. -/
def chunkAux : Nat → Nat → Nat → List (Nat × Nat)
  | 0, addr, len => [(addr, min len STLINK_MAXIMUM_TRANSFER_SIZE)]
  | fuel + 1, addr, len =>
    if len < STLINK_MAXIMUM_TRANSFER_SIZE then [(addr, min len STLINK_MAXIMUM_TRANSFER_SIZE)]
    else (addr, STLINK_MAXIMUM_TRANSFER_SIZE) ::
      chunkAux fuel (addr + STLINK_MAXIMUM_TRANSFER_SIZE) (len - STLINK_MAXIMUM_TRANSFER_SIZE)

/-- The (address, size) requests the chunking loop issues for a transfer of
`len` bytes starting at `addr`. -/
def chunkReqs (addr len : Nat) : List (Nat × Nat) := chunkAux len addr len

/-- Execute a list of chunked read requests through `get_mem32`,
concatenating the returned byte chunks in order; `none` if any request is
rejected.  Request addresses are reduced mod `2^32` as the source computes
`addr + offset` in `u32` arithmetic. -/
def runReadReqs (mem : Mem) : List (Nat × Nat) → Option (List Byte)
  | [] => some []
  | r :: rs =>
    match (getMem32 mem (r.1 % 2 ^ 32) r.2).1 with
    | none => none
    | some data => (runReadReqs mem rs).map (data ++ ·)

/-- The byte buffer assembled by the chunked-read loop of
`read_struct`/`read_struct_array` for `len` bytes at `addr`. -/
def readChunked (mem : Mem) (addr len : Nat) : Option (List Byte) :=
  runReadReqs mem (chunkReqs addr len)

/-- Split `buffer` into the chunk stores the write loop issues, with fuel. -/
def writeChunksAux : Nat → Nat → List Byte → List MemWrite
  | 0, addr, buffer => [⟨addr, buffer⟩]
  | fuel + 1, addr, buffer =>
    if buffer.length < STLINK_MAXIMUM_TRANSFER_SIZE then [⟨addr, buffer⟩]
    else ⟨addr, buffer.take STLINK_MAXIMUM_TRANSFER_SIZE⟩ ::
      writeChunksAux fuel (addr + STLINK_MAXIMUM_TRANSFER_SIZE)
        (buffer.drop STLINK_MAXIMUM_TRANSFER_SIZE)

/-- The chunk stores issued by `write_struct_array` /
`write_struct_array_offset` for `buffer` at `addr`. -/
def writeChunks (addr : Nat) (buffer : List Byte) : List MemWrite :=
  writeChunksAux buffer.length addr buffer

/-- Execute a list of chunk stores through `set_mem32` in order; `none` if
any store is rejected by the alignment assertions. -/
def runWrites (mem : Mem) : List MemWrite → Option Mem
  | [] => some mem
  | w :: ws =>
    match (setMem32 mem (w.addr % 2 ^ 32) w.data).1 with
    | none => none
    | some mem2 => runWrites mem2 ws

/-- `STLink::write_struct_array` (src/stlink.rs lines 481-499): the raw bytes
of the items, chunk-written starting at `addr`. -/
def writeStructArray (mem : Mem) (addr : Nat) (buffer : List Byte) : Option Mem :=
  runWrites mem (writeChunks addr buffer)

/-- `STLink::write_struct` (src/stlink.rs lines 473-479): a single
`set_mem32` of the item's bytes, with no chunking loop. -/
def writeStruct (mem : Mem) (addr : Nat) (data : List Byte) : Option Mem :=
  (setMem32 mem addr data).1

/-- `STLink::read_struct` (src/stlink.rs lines 380-407) at the byte level:
the chunked read of `sizeT = size_of::<T>()` bytes at `addr`. -/
def readStructBytes (mem : Mem) (addr sizeT : Nat) : Option (List Byte) :=
  readChunked mem addr sizeT

/-- `STLink::read_struct_array_with_offset` (src/stlink.rs lines 441-471) at
the byte level: `count` elements of size `sizeT` starting `offset` elements
past `addr`.  The initial byte offset `size_of::<T>() as u32 * offset` is
`u32` arithmetic; the `% 2^32` reduction happens at each `get_mem32` call. -/
def readStructArrayWithOffsetBytes (mem : Mem) (addr sizeT count offset : Nat) :
    Option (List Byte) :=
  readChunked mem (addr + sizeT * offset) (sizeT * count)

/-- The chunk stores issued by `write_struct_array_offset`
(src/stlink.rs lines 501-519): element offset scaled by the element size,
in `u32` arithmetic. -/
def writeStructArrayOffsetWrites (addr offset sizeT : Nat) (buffer : List Byte) :
    List MemWrite :=
  writeChunks ((addr + offset * sizeT) % 2 ^ 32) buffer

/-!
Data model (src/controller_interface.rs, src/controller_commands.rs).
All wire-facing structs are `#[repr(C)]`; `f32` fields are kept as their
32-bit little-endian bit patterns.
-/

/-- `ServoConfig` (src/controller_interface.rs lines 43-59): fourteen
consecutive `f32` parameters, 56 bytes, each field a 32-bit bit pattern. -/
structure ServoConfig where
  position_gain : Nat
  velocity_gain : Nat
  velocity_integrator_gain : Nat
  velocity_integrator_max_abs : Nat
  index_scan_speed : Nat
  turns_per_step : Nat
  vel_max_abs : Nat
  tor_max_abs : Nat
  max_pos_step : Nat
  input_filt_kp : Nat
  input_filt_ki : Nat
  inertia : Nat
  torque_bandwidth : Nat
  vel_pllki : Nat
  deriving DecidableEq, Repr

/-- The fourteen field words of a `ServoConfig` in declaration (= memory)
order. -/
def ServoConfig.fieldList (v : ServoConfig) : List Nat :=
  [v.position_gain, v.velocity_gain, v.velocity_integrator_gain,
   v.velocity_integrator_max_abs, v.index_scan_speed, v.turns_per_step,
   v.vel_max_abs, v.tor_max_abs, v.max_pos_step, v.input_filt_kp,
   v.input_filt_ki, v.inertia, v.torque_bandwidth, v.vel_pllki]

/-- Every field word fits in 32 bits (true of any value read from or written
to the 4-byte fields of the `#[repr(C)]` struct). -/
def ServoConfig.wf (v : ServoConfig) : Prop :=
  ∀ x ∈ v.fieldList, x < 2 ^ 32

instance (v : ServoConfig) : Decidable v.wf := by
  unfold ServoConfig.wf; infer_instance

/-- Raw 56-byte image of a `ServoConfig`, field order, little-endian. -/
def encodeServoConfig (v : ServoConfig) : List Byte :=
  (v.fieldList.map le32).flatten

/-- Reinterpret a raw byte buffer as a `ServoConfig`
(the `align_to::<T>` reinterpretation in `read_struct`). -/
def decodeServoConfig (b : List Byte) : ServoConfig :=
  ⟨word b 0, word b 1, word b 2, word b 3, word b 4, word b 5, word b 6,
   word b 7, word b 8, word b 9, word b 10, word b 11, word b 12, word b 13⟩

/-- `Command` (src/controller_commands.rs lines 8-32): a `#[repr(C)]` tagged
union, 4-byte discriminant followed by a 4-byte payload (the `f32`/`u32`
payloads kept as bit patterns); 8 bytes in total. -/
inductive Command where
  | motorStop
  | motorStart
  | setStepDirectionControl
  | setPositionControl
  | setVelocityControl
  | setTorqueControl
  | clearFaultState
  | positionCommand (position : Nat)
  | velocityCommand (velocity : Nat)
  | torqueCommand (torque : Nat)
  | findUpperMotionLimit
  | findLowerMotionLimit
  | loadServoConfig
  | saveServoConfig
  | setMotionProfile (profile : Nat)
  deriving DecidableEq, Repr

/-- Discriminant of a `Command`, in declaration order. -/
def Command.tag : Command → Nat
  | .motorStop => 0
  | .motorStart => 1
  | .setStepDirectionControl => 2
  | .setPositionControl => 3
  | .setVelocityControl => 4
  | .setTorqueControl => 5
  | .clearFaultState => 6
  | .positionCommand _ => 7
  | .velocityCommand _ => 8
  | .torqueCommand _ => 9
  | .findUpperMotionLimit => 10
  | .findLowerMotionLimit => 11
  | .loadServoConfig => 12
  | .saveServoConfig => 13
  | .setMotionProfile _ => 14

/-- Payload word of a `Command` (unit variants leave the payload bytes
zeroed in this model). -/
def Command.payload : Command → Nat
  | .positionCommand p => p
  | .velocityCommand v => v
  | .torqueCommand t => t
  | .setMotionProfile p => p
  | _ => 0

/-- `size_of::<Command>()` = 8: raw image is tag word then payload word. -/
def encodeCommand (c : Command) : List Byte :=
  le32 c.tag ++ le32 c.payload

/-- `CommandBufferInfo` (src/controller_commands.rs lines 37-42): four `u32`
fields at byte offsets 0, 4, 8, 12. -/
structure CommandBufferInfo where
  front : Nat
  back : Nat
  capacity : Nat
  data_addr : Nat
  deriving DecidableEq, Repr

/-- `Oscilloscope` (src/controller_interface.rs lines 170-175): one-byte
`bool` plus three bytes of `#[repr(C)]` padding, then three `u32` fields;
16 bytes. -/
structure Oscilloscope where
  recording : Bool
  index : Nat
  interval : Nat
  len : Nat
  deriving DecidableEq, Repr

/-- Raw 16-byte image of an `Oscilloscope` header (padding written as 0). -/
def encodeOscilloscope (o : Oscilloscope) : List Byte :=
  [if o.recording then 1 else 0, 0, 0, 0] ++ le32 o.index ++ le32 o.interval ++ le32 o.len

/-- `OscilloscopeSamplePoint` (src/controller_interface.rs lines 157-166):
eight `f32` fields, 32 bytes; fields kept as bit patterns. -/
structure OscilloscopeSamplePoint where
  pos : Nat
  vel : Nat
  acc : Nat
  pos_setpoint : Nat
  vel_setpoint : Nat
  tor_setpoint : Nat
  pos_input : Nat
  vel_input : Nat
  deriving DecidableEq, Repr

/-- `ControllerPointers` (src/controller_interface.rs lines 15-23). -/
structure ControllerPointers where
  magic : List Byte
  ready : Bool
  servo_config_addr : Nat
  servo_state_addr : Nat
  oscilloscope_addr : Nat
  oscilloscope_data_addr : Nat
  command_buffer_addr : Nat
  deriving DecidableEq, Repr

/-- `InterfaceCommand` (src/controller_interface.rs lines 207-217). -/
inductive InterfaceCommand where
  | writeServoConfig (cfg : ServoConfig)
  | startRecording
  | stopRecording
  | stopMotor
  | startMotor
  | positionCommand (position : Nat)
  | updateConfigParameter (offset : Nat) (value : Nat)
  | sendCommand (cmd : Command)
  | resetController
  deriving DecidableEq, Repr

/-!
`send_command` (src/controller_commands.rs lines 44-54).  The caller first
re-reads the `CommandBufferInfo` header; given that header, the function
either rejects with `Err(())` and performs no write, or issues exactly the
two `write_struct_array_offset` calls of the source.  `(back + 1)` is a
wrapping `u32` addition; `% capacity` panics when `capacity = 0` (modelled
as `none`).
-/

/-- Result and remote-store trace of `send_command` for a given re-read
header.  `size_of::<Command>() = 8`, and the back-index publish is
`write_struct_array_offset::<u32>(command_buffer_addr, 1, ...)`, i.e. 4
bytes at byte offset 4. -/
def send_command (command_buffer_addr : Nat) (info : CommandBufferInfo) (cmd : Command) :
    Option (Except Unit Unit × List MemWrite) :=
  if info.capacity = 0 then none
  else if (info.back + 1) % 2 ^ 32 % info.capacity ≠ info.front then
    some (Except.ok (),
      writeStructArrayOffsetWrites info.data_addr info.back 8 (encodeCommand cmd) ++
      writeStructArrayOffsetWrites command_buffer_addr 1 4
        (le32 ((info.back + 1) % 2 ^ 32 % info.capacity)))
  else
    some (Except.error (), [])

/-!
The oscilloscope drain step and sample-window trim of
`controller_connection_task` (src/controller_interface.rs lines 290-313).
-/

/-- One recording poll tick's region computation
(src/controller_interface.rs lines 294-302): given the locally tracked
`last_index` and the freshly re-read header, returns
`((start_off, end_off), new last_index)`. -/
def drainStep (lastIndex : Nat) (osc : Oscilloscope) : (Nat × Nat) × Nat :=
  if osc.index < lastIndex then ((lastIndex, osc.len), 0)
  else ((lastIndex, osc.index), osc.index)

/-- `max_sample_storage` (src/controller_interface.rs line 250). -/
def max_sample_storage : Nat := 10000

/-- Append a drained batch to the sample window and evict the oldest excess
(src/controller_interface.rs lines 306-312): `append` then
`drain(0..len - max)` when over the cap. -/
def appendTrim (window batch : List OscilloscopeSamplePoint) :
    List OscilloscopeSamplePoint :=
  if max_sample_storage < (window ++ batch).length then
    (window ++ batch).drop ((window ++ batch).length - max_sample_storage)
  else window ++ batch

/-!
Per-command processing of the poller loop
(src/controller_interface.rs lines 258-288).  Each `InterfaceCommand` yields
the new local `record_samples` flag and the remote operations it issues.
`info` is the `CommandBufferInfo` that `send_command`'s internal re-read
returns for the commands that enqueue.
-/

/-- A remote operation issued while processing an `InterfaceCommand`:
either a memory store or the `debug_resetsys` probe command (which writes no
target memory from the host side). -/
inductive RemoteOp where
  | store (w : MemWrite)
  | reset
  deriving DecidableEq, Repr

/-- The stores `send_command` performs (empty on the queue-full path and on
the `capacity = 0` panic path). -/
def sendCommandStores (command_buffer_addr : Nat) (info : CommandBufferInfo)
    (cmd : Command) : List MemWrite :=
  match send_command command_buffer_addr info cmd with
  | none => []
  | some r => r.2

/-- One arm of the poller's command `match`
(src/controller_interface.rs lines 259-287): new `record_samples` flag and
remote operations. -/
def processCommand (base : ControllerPointers) (info : CommandBufferInfo)
    (record : Bool) : InterfaceCommand → Bool × List RemoteOp
  | .writeServoConfig cfg =>
    (record, [.store ⟨base.servo_config_addr, encodeServoConfig cfg⟩])
  | .startRecording => (true, [])
  | .stopRecording => (false, [])
  | .stopMotor =>
    (record, (sendCommandStores base.command_buffer_addr info .motorStop).map .store)
  | .startMotor =>
    (record, (sendCommandStores base.command_buffer_addr info .motorStart).map .store)
  | .positionCommand p =>
    (record, (sendCommandStores base.command_buffer_addr info (.positionCommand p)).map .store)
  | .updateConfigParameter offset value =>
    (record, (writeStructArrayOffsetWrites base.servo_config_addr offset 4 (le32 value)).map .store)
  | .sendCommand c =>
    (record, (sendCommandStores base.command_buffer_addr info c).map .store)
  | .resetController => (record, [.reset])

/-- Drain a whole tick's command list in FIFO order, threading the local
`record_samples` flag and collecting all remote operations. -/
def processCommands (base : ControllerPointers) (info : CommandBufferInfo) :
    Bool → List InterfaceCommand → Bool × List RemoteOp
  | record, [] => (record, [])
  | record, c :: cs =>
    let r := processCommand base info record c
    let rest := processCommands base info r.1 cs
    (rest.1, r.2 ++ rest.2)

/-- The single setup write of `controller_connection_task`
(src/controller_interface.rs lines 240-244): the oscilloscope header is
re-written with `recording = true`. -/
def setupWrites (oscilloscope_addr : Nat) (osc : Oscilloscope) : List MemWrite :=
  [⟨oscilloscope_addr, encodeOscilloscope { osc with recording := true }⟩]

/-!
Lemmas about the chunking loop.
-/

theorem chunkAux_congr : ∀ f1 f2 addr len, len ≤ f1 → len ≤ f2 →
    chunkAux f1 addr len = chunkAux f2 addr len := by
  intro f1
  induction f1 with
  | zero =>
    intro f2 addr len h1 h2
    have hz : len = 0 := Nat.le_zero.mp h1
    subst hz
    cases f2 <;> simp [chunkAux, STLINK_MAXIMUM_TRANSFER_SIZE]
  | succ f ih =>
    intro f2 addr len h1 h2
    cases f2 with
    | zero =>
      have hz : len = 0 := Nat.le_zero.mp h2
      subst hz
      simp [chunkAux, STLINK_MAXIMUM_TRANSFER_SIZE]
    | succ g =>
      by_cases h : len < STLINK_MAXIMUM_TRANSFER_SIZE
      · simp [chunkAux, h]
      · simp only [chunkAux, h, if_false]
        have hsz : STLINK_MAXIMUM_TRANSFER_SIZE = 1024 := rfl
        refine congrArg _ (ih g (addr + STLINK_MAXIMUM_TRANSFER_SIZE)
          (len - STLINK_MAXIMUM_TRANSFER_SIZE) ?_ ?_) <;> omega

/-- The chunking loop's unfolding equation. -/
theorem chunkReqs_eq (addr len : Nat) :
    chunkReqs addr len =
      if len < STLINK_MAXIMUM_TRANSFER_SIZE then [(addr, min len STLINK_MAXIMUM_TRANSFER_SIZE)]
      else (addr, STLINK_MAXIMUM_TRANSFER_SIZE) ::
        chunkReqs (addr + STLINK_MAXIMUM_TRANSFER_SIZE) (len - STLINK_MAXIMUM_TRANSFER_SIZE) := by
  by_cases h : len < STLINK_MAXIMUM_TRANSFER_SIZE
  · cases hl : len with
    | zero => simp [chunkReqs, chunkAux, h, STLINK_MAXIMUM_TRANSFER_SIZE]
    | succ m => simp [chunkReqs, chunkAux, hl ▸ h]
  · have hsz : STLINK_MAXIMUM_TRANSFER_SIZE = 1024 := rfl
    obtain ⟨m, hm⟩ : ∃ m, len = m + 1 := ⟨len - 1, by omega⟩
    subst hm
    show chunkAux (m + 1) addr (m + 1) = _
    rw [chunkAux]
    simp only [h, if_false]
    unfold chunkReqs
    refine congrArg _ (chunkAux_congr m _ _ _ ?_ ?_) <;> omega

theorem chunkReqs_size_le (addr len : Nat) :
    ∀ r ∈ chunkReqs addr len, r.2 ≤ STLINK_MAXIMUM_TRANSFER_SIZE := by
  induction len using Nat.strong_induction_on generalizing addr with
  | _ len ih =>
    rw [chunkReqs_eq]
    by_cases h : len < STLINK_MAXIMUM_TRANSFER_SIZE
    · simp [h]
    · have hsz : STLINK_MAXIMUM_TRANSFER_SIZE = 1024 := rfl
      simp only [h, if_false, List.mem_cons]
      rintro r (rfl | hr)
      · exact le_refl _
      · exact ih (len - STLINK_MAXIMUM_TRANSFER_SIZE) (by omega) _ r hr

theorem chunkReqs_addr_lb (addr len : Nat) :
    ∀ r ∈ chunkReqs addr len, addr ≤ r.1 := by
  induction len using Nat.strong_induction_on generalizing addr with
  | _ len ih =>
    rw [chunkReqs_eq]
    by_cases h : len < STLINK_MAXIMUM_TRANSFER_SIZE
    · simp [h]
    · have hsz : STLINK_MAXIMUM_TRANSFER_SIZE = 1024 := rfl
      simp only [h, if_false, List.mem_cons]
      rintro r (rfl | hr)
      · exact le_refl _
      · exact le_trans (by omega) (ih (len - STLINK_MAXIMUM_TRANSFER_SIZE) (by omega) _ r hr)

/-- Chunk request addresses are strictly increasing in list order. -/
theorem chunkReqs_mono (addr len : Nat) :
    (chunkReqs addr len).Pairwise (fun p q => p.1 < q.1) := by
  induction len using Nat.strong_induction_on generalizing addr with
  | _ len ih =>
    rw [chunkReqs_eq]
    by_cases h : len < STLINK_MAXIMUM_TRANSFER_SIZE
    · simp [h]
    · have hsz : STLINK_MAXIMUM_TRANSFER_SIZE = 1024 := rfl
      simp only [h, if_false, List.pairwise_cons]
      refine ⟨fun r hr => ?_, ih (len - STLINK_MAXIMUM_TRANSFER_SIZE) (by omega) _⟩
      have := chunkReqs_addr_lb (addr + STLINK_MAXIMUM_TRANSFER_SIZE)
        (len - STLINK_MAXIMUM_TRANSFER_SIZE) r hr
      omega

/-- The chunk requests cover exactly the requested byte range, in order. -/
theorem chunkReqs_cover (addr len : Nat) :
    ((chunkReqs addr len).map fun r => List.range' r.1 r.2).flatten = List.range' addr len := by
  induction len using Nat.strong_induction_on generalizing addr with
  | _ len ih =>
    rw [chunkReqs_eq]
    by_cases h : len < STLINK_MAXIMUM_TRANSFER_SIZE
    · simp [h, Nat.min_eq_left (Nat.le_of_lt h)]
    · have hsz : STLINK_MAXIMUM_TRANSFER_SIZE = 1024 := rfl
      simp only [h, if_false, List.map_cons, List.flatten_cons]
      rw [ih (len - STLINK_MAXIMUM_TRANSFER_SIZE) (by omega)]
      have hap := List.range'_append addr STLINK_MAXIMUM_TRANSFER_SIZE
        (len - STLINK_MAXIMUM_TRANSFER_SIZE) 1
      simp only [one_mul] at hap
      rw [hap]
      exact congrArg (List.range' addr) (by omega)

theorem readBytes_add (mem : Mem) (a m n : Nat) :
    readBytes mem a (m + n) = readBytes mem a m ++ readBytes mem (a + m) n := by
  unfold readBytes
  rw [List.range_add, List.map_append, List.map_map]
  congr 1
  refine List.map_congr_left fun i _ => ?_
  simp only [Function.comp]
  congr 1
  omega

theorem readBytes_zero (mem : Mem) (a : Nat) : readBytes mem a 0 = [] := rfl

theorem runReadReqs_nil (mem : Mem) : runReadReqs mem [] = some [] := rfl

theorem runReadReqs_cons_ok (mem : Mem) (r : Nat × Nat) (rs : List (Nat × Nat))
    (h : mem32Ok (r.1 % 2 ^ 32) r.2) :
    runReadReqs mem (r :: rs) =
      (runReadReqs mem rs).map (readBytes mem (r.1 % 2 ^ 32) r.2 ++ ·) := by
  conv_lhs => rw [runReadReqs]
  unfold getMem32
  rw [if_pos h]

/-- The chunked read succeeds and equals the idealized unchunked read, for a
4-byte-aligned address and length with the range inside the `u32` address
space. -/
theorem readChunked_ok (mem : Mem) : ∀ len addr, addr % 4 = 0 → len % 4 = 0 →
    addr + len ≤ 2 ^ 32 → readChunked mem addr len = some (readBytes mem addr len) := by
  intro len
  induction len using Nat.strong_induction_on with
  | _ len ih =>
    intro addr ha hl hfit
    have hsz : STLINK_MAXIMUM_TRANSFER_SIZE = 1024 := rfl
    unfold readChunked
    rw [chunkReqs_eq]
    by_cases h : len < STLINK_MAXIMUM_TRANSFER_SIZE
    · rw [if_pos h, Nat.min_eq_left (Nat.le_of_lt h)]
      rw [runReadReqs_cons_ok mem (addr, len) [] ⟨by omega, hl, by omega⟩]
      rw [runReadReqs_nil]
      simp only [Option.map_some, List.append_nil]
      cases hlen : len with
      | zero => simp [readBytes_zero]
      | succ m =>
        have haddr : addr % 2 ^ 32 = addr := Nat.mod_eq_of_lt (by omega)
        rw [haddr]
        simp
    · rw [if_neg h]
      rw [runReadReqs_cons_ok mem (addr, STLINK_MAXIMUM_TRANSFER_SIZE) _
        ⟨by omega, by omega, le_refl _⟩]
      have hrest := ih (len - STLINK_MAXIMUM_TRANSFER_SIZE) (by omega)
        (addr + STLINK_MAXIMUM_TRANSFER_SIZE) (by omega) (by omega) (by omega)
      unfold readChunked at hrest
      rw [hrest]
      have haddr : addr % 2 ^ 32 = addr := Nat.mod_eq_of_lt (by omega)
      simp only [Option.map_some, haddr]
      have hlen : len = STLINK_MAXIMUM_TRANSFER_SIZE + (len - STLINK_MAXIMUM_TRANSFER_SIZE) := by
        omega
      rw [hlen, readBytes_add]
      simp

/-!
Write-side lemmas.
-/

theorem getD_append_lt {α : Type} (xs ys : List α) (d : α) :
    ∀ i, i < xs.length → (xs ++ ys).getD i d = xs.getD i d := by
  induction xs with
  | nil => intro i h; simp at h
  | cons x xs ih =>
    intro i h
    cases i with
    | zero => rfl
    | succ j =>
      simp only [List.cons_append, List.getD_cons_succ]
      exact ih j (by simpa using h)

theorem getD_append_ge {α : Type} (xs ys : List α) (d : α) :
    ∀ i, xs.length ≤ i → (xs ++ ys).getD i d = ys.getD (i - xs.length) d := by
  induction xs with
  | nil => intro i _; simp
  | cons x xs ih =>
    intro i h
    cases i with
    | zero => simp at h
    | succ j =>
      simp only [List.cons_append, List.getD_cons_succ, List.length_cons]
      rw [ih j (by simpa using h)]
      congr 1
      omega

theorem applyWrite_nil (mem : Mem) (a : Nat) : applyWrite mem ⟨a, []⟩ = mem := by
  funext b
  simp only [applyWrite, List.length_nil]
  split_ifs with h
  · omega
  · rfl

theorem applyWrite_outside (mem : Mem) (w : MemWrite) (b : Nat)
    (h : b < w.addr ∨ w.addr + w.data.length ≤ b) : applyWrite mem w b = mem b := by
  unfold applyWrite
  split_ifs with h2
  · omega
  · rfl

/-- Two adjacent stores combine into the store of the concatenated data. -/
theorem applyWrite_split (mem : Mem) (a : Nat) (xs ys : List Byte) :
    applyWrite (applyWrite mem ⟨a, xs⟩) ⟨a + xs.length, ys⟩ = applyWrite mem ⟨a, xs ++ ys⟩ := by
  funext b
  simp only [applyWrite, List.length_append]
  by_cases h1 : a + xs.length ≤ b ∧ b < a + xs.length + ys.length
  · rw [if_pos h1, if_pos (by omega)]
    rw [getD_append_ge xs ys 0 (b - a) (by omega)]
    congr 1
    omega
  · rw [if_neg h1]
    by_cases h2 : a ≤ b ∧ b < a + xs.length
    · rw [if_pos h2, if_pos (by omega)]
      rw [getD_append_lt xs ys 0 (b - a) (by omega)]
    · rw [if_neg h2, if_neg (by omega)]

theorem runWrites_nil (mem : Mem) : runWrites mem [] = some mem := rfl

theorem runWrites_cons_ok (mem : Mem) (w : MemWrite) (ws : List MemWrite)
    (h : mem32Ok (w.addr % 2 ^ 32) w.data.length) :
    runWrites mem (w :: ws) = runWrites (applyWrite mem ⟨w.addr % 2 ^ 32, w.data⟩) ws := by
  conv_lhs => rw [runWrites]
  unfold setMem32
  rw [if_pos h]

theorem writeChunksAux_congr : ∀ f1 f2 addr (buffer : List Byte),
    buffer.length ≤ f1 → buffer.length ≤ f2 →
    writeChunksAux f1 addr buffer = writeChunksAux f2 addr buffer := by
  intro f1
  induction f1 with
  | zero =>
    intro f2 addr buffer h1 h2
    have hz : buffer = [] := List.length_eq_zero.mp (Nat.le_zero.mp h1)
    subst hz
    cases f2 <;> simp [writeChunksAux, STLINK_MAXIMUM_TRANSFER_SIZE]
  | succ f ih =>
    intro f2 addr buffer h1 h2
    cases f2 with
    | zero =>
      have hz : buffer = [] := List.length_eq_zero.mp (Nat.le_zero.mp h2)
      subst hz
      simp [writeChunksAux, STLINK_MAXIMUM_TRANSFER_SIZE]
    | succ g =>
      by_cases h : buffer.length < STLINK_MAXIMUM_TRANSFER_SIZE
      · simp [writeChunksAux, h]
      · have hsz : STLINK_MAXIMUM_TRANSFER_SIZE = 1024 := rfl
        simp only [writeChunksAux, h, if_false]
        refine congrArg _ (ih g _ _ ?_ ?_) <;>
          simp only [List.length_drop] <;> omega

/-- The write-chunking loop's unfolding equation. -/
theorem writeChunks_eq (addr : Nat) (buffer : List Byte) :
    writeChunks addr buffer =
      if buffer.length < STLINK_MAXIMUM_TRANSFER_SIZE then [⟨addr, buffer⟩]
      else MemWrite.mk addr (buffer.take STLINK_MAXIMUM_TRANSFER_SIZE) ::
        writeChunks (addr + STLINK_MAXIMUM_TRANSFER_SIZE)
          (buffer.drop STLINK_MAXIMUM_TRANSFER_SIZE) := by
  by_cases h : buffer.length < STLINK_MAXIMUM_TRANSFER_SIZE
  · rw [if_pos h]
    cases hb : buffer with
    | nil => simp [writeChunks, writeChunksAux, STLINK_MAXIMUM_TRANSFER_SIZE]
    | cons x xs =>
      have h2 : xs.length + 1 < STLINK_MAXIMUM_TRANSFER_SIZE := by
        rw [hb] at h; simpa using h
      unfold writeChunks
      simp only [List.length_cons]
      rw [writeChunksAux,
        if_pos (show (x :: xs).length < STLINK_MAXIMUM_TRANSFER_SIZE by simpa using h2)]
  · rw [if_neg h]
    have hsz : STLINK_MAXIMUM_TRANSFER_SIZE = 1024 := rfl
    obtain ⟨m, hm⟩ : ∃ m, buffer.length = m + 1 := ⟨buffer.length - 1, by omega⟩
    unfold writeChunks
    rw [hm, writeChunksAux, if_neg h]
    refine congrArg _ (writeChunksAux_congr m _ _ _ ?_ ?_) <;>
      simp only [List.length_drop] <;> omega

theorem writeChunks_small (addr : Nat) (buffer : List Byte)
    (h : buffer.length < STLINK_MAXIMUM_TRANSFER_SIZE) :
    writeChunks addr buffer = [⟨addr, buffer⟩] := by
  rw [writeChunks_eq, if_pos h]

/-- The chunked write succeeds and has the same memory effect as one
idealized unchunked store, for a 4-byte-aligned address and data length with
the range inside the `u32` address space. -/
theorem writeStructArray_ok (mem : Mem) (buffer : List Byte) (addr : Nat)
    (ha : addr % 4 = 0) (hl : buffer.length % 4 = 0) (hfit : addr + buffer.length ≤ 2 ^ 32) :
    writeStructArray mem addr buffer = some (applyWrite mem ⟨addr, buffer⟩) := by
  have hgen : ∀ n (buf : List Byte) (a : Nat) (m : Mem), buf.length = n →
      a % 4 = 0 → buf.length % 4 = 0 → a + buf.length ≤ 2 ^ 32 →
      writeStructArray m a buf = some (applyWrite m ⟨a, buf⟩) := by
    intro n
    induction n using Nat.strong_induction_on with
    | _ n ih =>
      intro buf a m hn ha2 hl2 hfit2
      have hsz : STLINK_MAXIMUM_TRANSFER_SIZE = 1024 := rfl
      unfold writeStructArray
      rw [writeChunks_eq]
      by_cases h : buf.length < STLINK_MAXIMUM_TRANSFER_SIZE
      · rw [if_pos h]
        rw [runWrites_cons_ok m ⟨a, buf⟩ []
          ⟨show a % 2 ^ 32 % 4 = 0 by omega, hl2,
           show buf.length ≤ STLINK_MAXIMUM_TRANSFER_SIZE by omega⟩]
        rw [runWrites_nil]
        cases hb : buf with
        | nil => simp [applyWrite_nil]
        | cons x xs =>
          have hlt : a % 2 ^ 32 = a := by
            refine Nat.mod_eq_of_lt ?_
            have : buf.length ≠ 0 := by rw [hb]; simp
            omega
          rw [hlt]
      · rw [if_neg h]
        rw [runWrites_cons_ok m _ _ ?hok]
        case hok =>
          show mem32Ok (a % 2 ^ 32) (buf.take STLINK_MAXIMUM_TRANSFER_SIZE).length
          simp only [List.length_take]
          refine ⟨by omega, ?_, ?_⟩ <;> rw [Nat.min_eq_left (by omega)] <;> omega
        have hlt : a % 2 ^ 32 = a := Nat.mod_eq_of_lt (by omega)
        simp only [hlt]
        have hdrop := ih (buf.length - STLINK_MAXIMUM_TRANSFER_SIZE) (by omega)
          (buf.drop STLINK_MAXIMUM_TRANSFER_SIZE) (a + STLINK_MAXIMUM_TRANSFER_SIZE)
          (applyWrite m ⟨a, buf.take STLINK_MAXIMUM_TRANSFER_SIZE⟩)
          (by simp) (by omega) (by simp only [List.length_drop]; omega)
          (by simp only [List.length_drop]; omega)
        unfold writeStructArray at hdrop
        rw [hdrop]
        have htk : (buf.take STLINK_MAXIMUM_TRANSFER_SIZE).length =
            STLINK_MAXIMUM_TRANSFER_SIZE := by simp only [List.length_take]; omega
        have := applyWrite_split m a (buf.take STLINK_MAXIMUM_TRANSFER_SIZE)
          (buf.drop STLINK_MAXIMUM_TRANSFER_SIZE)
        rw [htk] at this
        rw [this, List.take_append_drop]
  exact hgen buffer.length buffer addr mem rfl ha hl hfit

/-- Chunk-store addresses and sizes agree with the read-side chunk requests. -/
theorem writeChunks_shape (addr : Nat) (buffer : List Byte) :
    (writeChunks addr buffer).map (fun w => (w.addr, w.data.length)) =
      chunkReqs addr buffer.length := by
  have hgen : ∀ n (buf : List Byte) (a : Nat), buf.length = n →
      (writeChunks a buf).map (fun w => (w.addr, w.data.length)) = chunkReqs a buf.length := by
    intro n
    induction n using Nat.strong_induction_on with
    | _ n ih =>
      intro buf a hn
      have hsz : STLINK_MAXIMUM_TRANSFER_SIZE = 1024 := rfl
      rw [writeChunks_eq, chunkReqs_eq]
      by_cases h : buf.length < STLINK_MAXIMUM_TRANSFER_SIZE
      · rw [if_pos h, if_pos h]
        simp only [List.map_cons, List.map_nil]
        rw [Nat.min_eq_left (Nat.le_of_lt h)]
      · rw [if_neg h, if_neg h]
        simp only [List.map_cons]
        rw [ih (buf.length - STLINK_MAXIMUM_TRANSFER_SIZE) (by omega) _ _ (by simp)]
        simp only [List.length_take, List.length_drop]
        congr 2
        omega
  exact hgen buffer.length buffer addr rfl

/-- The chunk stores carry exactly the buffer's bytes, in order. -/
theorem writeChunks_data (addr : Nat) (buffer : List Byte) :
    ((writeChunks addr buffer).map MemWrite.data).flatten = buffer := by
  have hgen : ∀ n (buf : List Byte) (a : Nat), buf.length = n →
      ((writeChunks a buf).map MemWrite.data).flatten = buf := by
    intro n
    induction n using Nat.strong_induction_on with
    | _ n ih =>
      intro buf a hn
      have hsz : STLINK_MAXIMUM_TRANSFER_SIZE = 1024 := rfl
      rw [writeChunks_eq]
      by_cases h : buf.length < STLINK_MAXIMUM_TRANSFER_SIZE
      · rw [if_pos h]; simp
      · rw [if_neg h]
        simp only [List.map_cons, List.flatten_cons]
        rw [ih (buf.length - STLINK_MAXIMUM_TRANSFER_SIZE) (by omega) _ _ (by simp)]
        exact List.take_append_drop _ buf
  exact hgen buffer.length buffer addr rfl

/-- Reading back exactly the stored range returns the stored bytes. -/
theorem readBytes_applyWrite_self (mem : Mem) (a : Nat) (d : List Byte) :
    readBytes (applyWrite mem ⟨a, d⟩) a d.length = d := by
  refine List.ext_getElem (by simp [readBytes]) ?_
  intro i h1 h2
  simp only [readBytes, List.getElem_map, List.getElem_range, applyWrite]
  rw [if_pos (by simp [readBytes] at h1; omega)]
  have hi : a + i - a = i := by omega
  rw [hi]
  exact List.getD_eq_getElem d 0 h2

/-- A store leaves every read of a disjoint range unchanged. -/
theorem readBytes_applyWrite_outside (mem : Mem) (w : MemWrite) (a n : Nat)
    (h : a + n ≤ w.addr ∨ w.addr + w.data.length ≤ a) :
    readBytes (applyWrite mem w) a n = readBytes mem a n := by
  refine List.ext_getElem (by simp [readBytes]) ?_
  intro i h1 h2
  simp only [readBytes, List.getElem_map, List.getElem_range]
  refine applyWrite_outside mem w (a + i) ?_
  simp [readBytes] at h1
  omega

/-!
Word extraction from raw struct images.
-/

theorem le32_length (x : Nat) : (le32 x).length = 4 := rfl

theorem fromLe32_le32 (x : Nat) (h : x < 2 ^ 32) : fromLe32 (le32 x) = x := by
  simp only [fromLe32, le32, List.getD_cons_zero, List.getD_cons_succ]
  omega

/-- Field-word extraction from the concatenation of 32-bit little-endian
words recovers the word list. -/
theorem word_flatten_map_le32 : ∀ (xs : List Nat) (i : Nat), (∀ x ∈ xs, x < 2 ^ 32) →
    i < xs.length → word (xs.map le32).flatten i = xs.getD i 0 := by
  intro xs
  induction xs with
  | nil => intro i _ h; simp at h
  | cons x t ih =>
    intro i hwf hi
    cases i with
    | zero =>
      simp only [List.map_cons, List.flatten_cons, word, Nat.mul_zero, List.drop_zero,
        List.getD_cons_zero]
      rw [List.take_left' (le32_length x)]
      exact fromLe32_le32 x (hwf x (by simp))
    | succ j =>
      simp only [List.map_cons, List.flatten_cons, word, List.getD_cons_succ]
      have hd : 4 * (j + 1) = 4 + 4 * j := by omega
      rw [hd, ← List.drop_drop, List.drop_left' (le32_length x)]
      exact ih j (fun y hy => hwf y (by simp [hy])) (by simpa using hi)

theorem servoConfig_fieldList_length (v : ServoConfig) : v.fieldList.length = 14 := rfl

theorem encodeServoConfig_length (v : ServoConfig) : (encodeServoConfig v).length = 56 := by
  simp [encodeServoConfig, ServoConfig.fieldList, le32]

/-- Reinterpreting the raw image of a well-formed `ServoConfig` recovers the
value (the `align_to` reinterpretation inverts the byte copy). -/
theorem decodeServoConfig_encodeServoConfig (v : ServoConfig) (h : v.wf) :
    decodeServoConfig (encodeServoConfig v) = v := by
  have hw : ∀ i, i < 14 → word (encodeServoConfig v) i = v.fieldList.getD i 0 := by
    intro i hi
    exact word_flatten_map_le32 v.fieldList i h (by rw [servoConfig_fieldList_length]; omega)
  unfold decodeServoConfig
  rw [hw 0 (by omega), hw 1 (by omega), hw 2 (by omega), hw 3 (by omega), hw 4 (by omega),
    hw 5 (by omega), hw 6 (by omega), hw 7 (by omega), hw 8 (by omega), hw 9 (by omega),
    hw 10 (by omega), hw 11 (by omega), hw 12 (by omega), hw 13 (by omega)]
  cases v
  simp [ServoConfig.fieldList]

theorem encodeCommand_length (c : Command) : (encodeCommand c).length = 8 := rfl

/-!
Claim theorems.
-/

/-- Claim C1: for every `CommandBufferInfo` header with capacity at least 2
that `send_command` reads before enqueuing, the enqueue fails with the
queue-full error if and only if `(back + 1) mod capacity = front` (the
`back + 1` being the source's wrapping `u32` addition), and on the failure
path `send_command` performs no remote memory write at all. -/
theorem claim_C1 (cba : Nat) (info : CommandBufferInfo) (cmd : Command)
    (hcap : 2 ≤ info.capacity) :
    (send_command cba info cmd = some (Except.error (), []) ↔
      (info.back + 1) % 2 ^ 32 % info.capacity = info.front) ∧
    ((info.back + 1) % 2 ^ 32 % info.capacity ≠ info.front →
      ∃ ws, send_command cba info cmd = some (Except.ok (), ws)) := by
  unfold send_command
  rw [if_neg (show ¬ info.capacity = 0 by omega)]
  by_cases h : (info.back + 1) % 2 ^ 32 % info.capacity = info.front
  · rw [if_neg (not_not_intro h)]
    exact ⟨⟨fun _ => h, fun _ => rfl⟩, fun hne => absurd h hne⟩
  · rw [if_pos h]
    refine ⟨⟨fun heq => ?_, fun he => absurd he h⟩, fun _ => ⟨_, rfl⟩⟩
    simp at heq

theorem claim_C1_witness :
    send_command 0 ⟨0, 7, 8, 0⟩ Command.motorStop = some (Except.error (), []) ∧
    ∃ ws, send_command 0 ⟨0, 6, 8, 0⟩ Command.motorStop = some (Except.ok (), ws) :=
  ⟨(claim_C1 0 ⟨0, 7, 8, 0⟩ Command.motorStop (by norm_num)).1.mpr (by decide),
   (claim_C1 0 ⟨0, 6, 8, 0⟩ Command.motorStop (by norm_num)).2 (by decide)⟩

/-- Claim C4: on a non-full header, a successful `send_command` performs
exactly two remote stores, in order: the 8-byte `Command` image at
`data_addr + back * size_of::<Command>()`, then the 4-byte new back index
`(back + 1) mod capacity` into the header's back field at byte offset 4;
applying the two stores leaves the bytes of `front`, `capacity` and
`data_addr` unchanged while the back field re-reads as the new index. -/
theorem claim_C4 (mem : Mem) (cba : Nat) (info : CommandBufferInfo) (cmd : Command)
    (hcap : 2 ≤ info.capacity)
    (hnotfull : (info.back + 1) % 2 ^ 32 % info.capacity ≠ info.front)
    (hda : info.data_addr % 4 = 0) (hcba : cba % 4 = 0)
    (hslotfit : info.data_addr + info.back * 8 + 8 ≤ 2 ^ 32)
    (hhdrfit : cba + 16 ≤ 2 ^ 32)
    (hdisj : info.data_addr + info.back * 8 + 8 ≤ cba ∨
      cba + 16 ≤ info.data_addr + info.back * 8) :
    send_command cba info cmd = some (Except.ok (),
      [⟨info.data_addr + info.back * 8, encodeCommand cmd⟩,
       ⟨cba + 4, le32 ((info.back + 1) % 2 ^ 32 % info.capacity)⟩]) ∧
    runWrites mem
      [⟨info.data_addr + info.back * 8, encodeCommand cmd⟩,
       ⟨cba + 4, le32 ((info.back + 1) % 2 ^ 32 % info.capacity)⟩] =
      some (applyWrite (applyWrite mem ⟨info.data_addr + info.back * 8, encodeCommand cmd⟩)
        ⟨cba + 4, le32 ((info.back + 1) % 2 ^ 32 % info.capacity)⟩) ∧
    readBytes (applyWrite (applyWrite mem ⟨info.data_addr + info.back * 8, encodeCommand cmd⟩)
        ⟨cba + 4, le32 ((info.back + 1) % 2 ^ 32 % info.capacity)⟩) cba 4 =
      readBytes mem cba 4 ∧
    readBytes (applyWrite (applyWrite mem ⟨info.data_addr + info.back * 8, encodeCommand cmd⟩)
        ⟨cba + 4, le32 ((info.back + 1) % 2 ^ 32 % info.capacity)⟩) (cba + 4) 4 =
      le32 ((info.back + 1) % 2 ^ 32 % info.capacity) ∧
    readBytes (applyWrite (applyWrite mem ⟨info.data_addr + info.back * 8, encodeCommand cmd⟩)
        ⟨cba + 4, le32 ((info.back + 1) % 2 ^ 32 % info.capacity)⟩) (cba + 8) 8 =
      readBytes mem (cba + 8) 8 := by
  have henc : (encodeCommand cmd).length = 8 := encodeCommand_length cmd
  have hle : (le32 ((info.back + 1) % 2 ^ 32 % info.capacity)).length = 4 := le32_length _
  have hsz : STLINK_MAXIMUM_TRANSFER_SIZE = 1024 := rfl
  refine ⟨?_, ?_, ?_, ?_, ?_⟩
  · unfold send_command
    rw [if_neg (show ¬ info.capacity = 0 by omega), if_pos hnotfull]
    unfold writeStructArrayOffsetWrites
    rw [Nat.mod_eq_of_lt (show info.data_addr + info.back * 8 < 2 ^ 32 by omega)]
    rw [Nat.mod_eq_of_lt (show cba + 1 * 4 < 2 ^ 32 by omega)]
    rw [writeChunks_small _ _ (by rw [henc]; omega),
      writeChunks_small _ _ (by rw [hle]; omega)]
    norm_num
  · rw [runWrites_cons_ok mem _ _
      ⟨show (info.data_addr + info.back * 8) % 2 ^ 32 % 4 = 0 by omega,
       show (encodeCommand cmd).length % 4 = 0 by rw [henc],
       show (encodeCommand cmd).length ≤ STLINK_MAXIMUM_TRANSFER_SIZE by rw [henc]; omega⟩]
    rw [show (⟨info.data_addr + info.back * 8, encodeCommand cmd⟩ : MemWrite).addr % 2 ^ 32 =
      info.data_addr + info.back * 8 from
      Nat.mod_eq_of_lt (show info.data_addr + info.back * 8 < 2 ^ 32 by omega)]
    rw [runWrites_cons_ok _ _ _
      ⟨show (cba + 4) % 2 ^ 32 % 4 = 0 by omega,
       show (le32 ((info.back + 1) % 2 ^ 32 % info.capacity)).length % 4 = 0 by rw [hle],
       show (le32 ((info.back + 1) % 2 ^ 32 % info.capacity)).length ≤
         STLINK_MAXIMUM_TRANSFER_SIZE by rw [hle]; omega⟩]
    rw [show (⟨cba + 4, le32 ((info.back + 1) % 2 ^ 32 % info.capacity)⟩ : MemWrite).addr %
      2 ^ 32 = cba + 4 from Nat.mod_eq_of_lt (show cba + 4 < 2 ^ 32 by omega)]
    exact runWrites_nil _
  · rw [readBytes_applyWrite_outside _ _ _ _ (Or.inl (le_refl (cba + 4)))]
    exact readBytes_applyWrite_outside _ _ _ _
      (show cba + 4 ≤ info.data_addr + info.back * 8 ∨
        info.data_addr + info.back * 8 + (encodeCommand cmd).length ≤ cba from
        by rw [henc]; omega)
  · have hself := readBytes_applyWrite_self
      (applyWrite mem ⟨info.data_addr + info.back * 8, encodeCommand cmd⟩)
      (cba + 4) (le32 ((info.back + 1) % 2 ^ 32 % info.capacity))
    rw [hle] at hself
    exact hself
  · rw [readBytes_applyWrite_outside _ _ _ _ (Or.inr
      (show cba + 4 + (le32 ((info.back + 1) % 2 ^ 32 % info.capacity)).length ≤ cba + 8 from
        by rw [hle]))]
    exact readBytes_applyWrite_outside _ _ _ _
      (show cba + 8 + 8 ≤ info.data_addr + info.back * 8 ∨
        info.data_addr + info.back * 8 + (encodeCommand cmd).length ≤ cba + 8 from
        by rw [henc]; omega)

theorem claim_C4_witness :
    send_command 256 ⟨0, 3, 8, 512⟩ Command.motorStop = some (Except.ok (),
      [⟨512 + 3 * 8, encodeCommand Command.motorStop⟩,
       ⟨256 + 4, le32 ((3 + 1) % 2 ^ 32 % 8)⟩]) :=
  (claim_C4 (fun _ => 0) 256 ⟨0, 3, 8, 512⟩ Command.motorStop (by norm_num) (by decide)
    (by norm_num) (by norm_num) (by norm_num) (by norm_num) (Or.inr (by norm_num))).1

/-- Claim C7: a 32-bit memory operation whose address or size violates the
4-byte alignment requirements (or whose size exceeds the 1024-byte maximum)
is rejected by the assertions before any USB traffic: the call produces no
transport event at all. -/
theorem claim_C7 (mem : Mem) :
    (∀ addr size, ¬ mem32Ok addr size → getMem32 mem addr size = (none, [])) ∧
    (∀ addr (data : List Byte), ¬ mem32Ok addr data.length →
      setMem32 mem addr data = (none, [])) := by
  constructor
  · intro addr size h
    simp [getMem32, h]
  · intro addr data h
    simp [setMem32, h]

theorem claim_C7_witness :
    getMem32 (fun _ => 0) 2 4 = (none, []) ∧
    setMem32 (fun _ => 0) 0 [1, 2, 3] = (none, []) :=
  ⟨(claim_C7 (fun _ => 0)).1 2 4 (by decide),
   (claim_C7 (fun _ => 0)).2 0 [1, 2, 3] (by decide)⟩

/-- Claim C10: when the requested byte length is a positive exact multiple
of the 1024-byte maximum transfer size, the chunking loop used by
`read_struct` and `read_struct_array` issues one additional trailing request
of size 0 after the final full 1024-byte chunk (the loop re-tests
`len < 1024` only after subtracting the chunk). -/
theorem claim_C10 (addr k : Nat) :
    chunkReqs addr (1024 * (k + 1)) =
      ((List.range (k + 1)).map fun i => (addr + 1024 * i, 1024)) ++
        [(addr + 1024 * (k + 1), 0)] ∧
    ∀ mem : Mem, readStructBytes mem addr (1024 * (k + 1)) =
      runReadReqs mem (chunkReqs addr (1024 * (k + 1))) := by
  refine ⟨?_, fun mem => rfl⟩
  induction k generalizing addr with
  | zero =>
    rw [chunkReqs_eq]
    rw [if_neg (show ¬ 1024 * (0 + 1) < STLINK_MAXIMUM_TRANSFER_SIZE by
      simp [STLINK_MAXIMUM_TRANSFER_SIZE])]
    rw [chunkReqs_eq]
    norm_num [STLINK_MAXIMUM_TRANSFER_SIZE, List.range_succ]
  | succ n ih =>
    rw [chunkReqs_eq]
    rw [if_neg (show ¬ 1024 * (n + 1 + 1) < STLINK_MAXIMUM_TRANSFER_SIZE by
      simp only [STLINK_MAXIMUM_TRANSFER_SIZE]; omega)]
    have hlen : 1024 * (n + 1 + 1) - STLINK_MAXIMUM_TRANSFER_SIZE = 1024 * (n + 1) := by
      simp only [STLINK_MAXIMUM_TRANSFER_SIZE]; omega
    have hsz : STLINK_MAXIMUM_TRANSFER_SIZE = 1024 := rfl
    rw [hsz, show 1024 * (n + 1 + 1) - 1024 = 1024 * (n + 1) by omega, ih]
    conv_rhs => rw [List.range_succ_eq_map]
    simp only [List.map_cons, List.map_map, List.cons_append, Nat.mul_zero, Nat.add_zero]
    have hmap : List.map (fun i => (addr + 1024 + 1024 * i, 1024)) (List.range (n + 1)) =
        List.map ((fun i => (addr + 1024 * i, 1024)) ∘ Nat.succ) (List.range (n + 1)) :=
      List.map_congr_left fun i _ => by
        simp only [Function.comp_apply]
        congr 1
        omega
    rw [hmap, show addr + 1024 + 1024 * (n + 1) = addr + 1024 * (n + 1 + 1) by omega]

/-- Claim C2: for a 4-byte-aligned address and a size that is a multiple of
4, the chunked `read_struct` equals one idealized unchunked read and
`write_struct_array` has the effect of one idealized unchunked store; the
chunk requests are issued at strictly increasing addresses, each of size at
most 1024 bytes, and their concatenation covers exactly the requested byte
range in address order. -/
theorem claim_C2 (mem : Mem) (addr len : Nat) (buffer : List Byte)
    (ha : addr % 4 = 0) (hl : len % 4 = 0) (hfit : addr + len ≤ 2 ^ 32)
    (hbl : buffer.length % 4 = 0) (hbfit : addr + buffer.length ≤ 2 ^ 32) :
    readStructBytes mem addr len = some (readBytes mem addr len) ∧
    writeStructArray mem addr buffer = some (applyWrite mem ⟨addr, buffer⟩) ∧
    (chunkReqs addr len).Pairwise (fun p q => p.1 < q.1) ∧
    (∀ r ∈ chunkReqs addr len, r.2 ≤ STLINK_MAXIMUM_TRANSFER_SIZE) ∧
    ((chunkReqs addr len).map fun r => List.range' r.1 r.2).flatten = List.range' addr len ∧
    (writeChunks addr buffer).map (fun w => (w.addr, w.data.length)) =
      chunkReqs addr buffer.length ∧
    ((writeChunks addr buffer).map MemWrite.data).flatten = buffer :=
  ⟨readChunked_ok mem len addr ha hl hfit,
   writeStructArray_ok mem buffer addr ha hbl hbfit,
   chunkReqs_mono addr len,
   chunkReqs_size_le addr len,
   chunkReqs_cover addr len,
   writeChunks_shape addr buffer,
   writeChunks_data addr buffer⟩

theorem claim_C2_witness :
    readStructBytes (fun _ => 0) 0 1028 = some (readBytes (fun _ => 0) 0 1028) ∧
    writeStructArray (fun _ => 0) 0 (List.replicate 1032 7) =
      some (applyWrite (fun _ => 0) ⟨0, List.replicate 1032 7⟩) :=
  ⟨(claim_C2 (fun _ => 0) 0 1028 (List.replicate 1032 7) (by norm_num) (by norm_num)
      (by norm_num) (by simp) (by simp)).1,
   (claim_C2 (fun _ => 0) 0 1028 (List.replicate 1032 7) (by norm_num) (by norm_num)
      (by norm_num) (by simp) (by simp)).2.1⟩

/-- Claim C3: on a recording poll tick, after re-reading the header: if the
current index is below the locally tracked `last_index` (the writer
wrapped) the drained byte region is samples `[last_index, capacity)` and
`last_index` is reset to 0; otherwise the region is `[last_index, index)`
and `last_index` becomes `index`.  The drained bytes are exactly the
sample-array bytes of that region. -/
theorem claim_C3 (mem : Mem) (lastIndex : Nat) (osc : Oscilloscope) (dataAddr : Nat)
    (hda : dataAddr % 4 = 0) (hfit : dataAddr + 32 * osc.len ≤ 2 ^ 32)
    (hlast : lastIndex ≤ osc.len) (hidx : osc.index ≤ osc.len) :
    (osc.index < lastIndex →
      drainStep lastIndex osc = ((lastIndex, osc.len), 0) ∧
      readStructArrayWithOffsetBytes mem dataAddr 32 (osc.len - lastIndex) lastIndex =
        some (readBytes mem (dataAddr + 32 * lastIndex) (32 * (osc.len - lastIndex)))) ∧
    (lastIndex ≤ osc.index →
      drainStep lastIndex osc = ((lastIndex, osc.index), osc.index) ∧
      readStructArrayWithOffsetBytes mem dataAddr 32 (osc.index - lastIndex) lastIndex =
        some (readBytes mem (dataAddr + 32 * lastIndex) (32 * (osc.index - lastIndex)))) := by
  constructor
  · intro h
    refine ⟨by simp [drainStep, h], ?_⟩
    exact readChunked_ok mem _ _ (by omega) (by omega) (by omega)
  · intro h
    have hnlt : ¬ osc.index < lastIndex := by omega
    refine ⟨by simp [drainStep, hnlt], ?_⟩
    exact readChunked_ok mem _ _ (by omega) (by omega) (by omega)

theorem claim_C3_witness :
    drainStep 950 ⟨true, 20, 1, 1000⟩ = ((950, 1000), 0) ∧
    readStructArrayWithOffsetBytes (fun _ => 0) 0 32 (1000 - 950) 950 =
      some (readBytes (fun _ => 0) (0 + 32 * 950) (32 * (1000 - 950))) :=
  (claim_C3 (fun _ => 0) 950 ⟨true, 20, 1, 1000⟩ 0 (by norm_num) (by norm_num)
    (by norm_num) (by norm_num)).1 (by norm_num)

theorem appendTrim_length_le (w b : List OscilloscopeSamplePoint)
    (h : w.length ≤ max_sample_storage) :
    (appendTrim w b).length ≤ max_sample_storage := by
  unfold appendTrim
  split_ifs with hc
  · simp only [List.length_drop]
    omega
  · simp only [List.length_append] at hc ⊢
    omega

theorem appendTrim_foldl : ∀ (bs : List (List OscilloscopeSamplePoint))
    (w : List OscilloscopeSamplePoint), w.length ≤ max_sample_storage →
    bs.foldl appendTrim w =
      (w ++ bs.flatten).drop ((w ++ bs.flatten).length - max_sample_storage) := by
  intro bs
  induction bs with
  | nil =>
    intro w h
    simp only [List.foldl_nil, List.flatten_nil, List.append_nil]
    rw [show w.length - max_sample_storage = 0 by omega, List.drop_zero]
  | cons b t ih =>
    intro w h
    simp only [List.foldl_cons, List.flatten_cons]
    rw [ih _ (appendTrim_length_le w b h)]
    unfold appendTrim
    split_ifs with hc
    · rw [← List.drop_append_of_le_length (show (w ++ b).length - max_sample_storage ≤
        (w ++ b).length by omega)]
      rw [List.drop_drop]
      rw [← List.append_assoc]
      refine congrArg (fun n => List.drop n ((w ++ b) ++ t.flatten)) ?_
      simp only [List.length_append, List.length_drop]
      omega
    · rw [← List.append_assoc]

/-- Claim C5: after any sequence of drained batches is appended tick by
tick, the sample window holds at most `max_sample_storage` (10,000) samples,
and it always equals the suffix of most recent samples, oldest first: the
oldest excess is evicted from the front. -/
theorem claim_C5 (batches : List (List OscilloscopeSamplePoint)) :
    (batches.foldl appendTrim []).length ≤ max_sample_storage ∧
    batches.foldl appendTrim [] =
      batches.flatten.drop (batches.flatten.length - max_sample_storage) := by
  have hmain := appendTrim_foldl batches [] (by simp [max_sample_storage])
  simp only [List.nil_append] at hmain
  refine ⟨?_, hmain⟩
  rw [hmain]
  simp only [List.length_drop]
  omega

/-- Claim C6: writing a `ServoConfig` with `write_struct` and reading the
same address back with `read_struct` (no other writer) returns a
byte-identical value. -/
theorem claim_C6 (mem : Mem) (addr : Nat) (v : ServoConfig)
    (ha : addr % 4 = 0) (hfit : addr + 56 ≤ 2 ^ 32) (hwf : v.wf) :
    (writeStruct mem addr (encodeServoConfig v)).bind
      (fun mem2 => (readStructBytes mem2 addr 56).map decodeServoConfig) = some v := by
  have hlen := encodeServoConfig_length v
  have hws : writeStruct mem addr (encodeServoConfig v) =
      some (applyWrite mem ⟨addr, encodeServoConfig v⟩) := by
    unfold writeStruct setMem32
    rw [if_pos ⟨ha, by rw [hlen],
      by rw [hlen]; norm_num [STLINK_MAXIMUM_TRANSFER_SIZE]⟩]
  rw [hws, Option.some_bind]
  unfold readStructBytes
  rw [readChunked_ok _ 56 addr ha (by norm_num) (by omega)]
  have hrb : readBytes (applyWrite mem ⟨addr, encodeServoConfig v⟩) addr 56 =
      encodeServoConfig v := by
    have hself := readBytes_applyWrite_self mem addr (encodeServoConfig v)
    rw [hlen] at hself
    exact hself
  rw [hrb]
  simp [decodeServoConfig_encodeServoConfig v hwf]

theorem claim_C6_witness :
    (writeStruct (fun _ => 0) 0
        (encodeServoConfig ⟨0, 0, 0, 0, 0, 0, 0, 0, 0, 0, 0, 0, 0, 0⟩)).bind
      (fun mem2 => (readStructBytes mem2 0 56).map decodeServoConfig) =
      some ⟨0, 0, 0, 0, 0, 0, 0, 0, 0, 0, 0, 0, 0, 0⟩ :=
  claim_C6 (fun _ => 0) 0 ⟨0, 0, 0, 0, 0, 0, 0, 0, 0, 0, 0, 0, 0, 0⟩
    (by norm_num) (by norm_num) (by decide)

/-- Claim C8 fails on the code: `get_mem16` allocates a receive buffer of
exactly `size` bytes (src/stlink.rs line 358), so a size it accepts by its
own assertions, such as 4, hands `STLink::read` a buffer violating
`read`'s `buf.len() >= 64` assertion; the other probe operations do satisfy
the 64-byte / multiple-of-4 receive-buffer constraint (`get_mem32` uses
`size.max(64)` and the rest use a fixed 64-byte buffer). -/
theorem claim_C8_bug :
    mem16Ok 0 4 ∧ getMem16RxLen 4 = 4 ∧ ¬ readBufOk (getMem16RxLen 4) ∧
    (∀ mem : Mem, (getMem16 mem 0 4).2 =
      [UsbEvent.write (cmdFrame ([0xf2, 0x47] ++ le32 0 ++ le32 4)), UsbEvent.read 4]) ∧
    (∀ k : Nat, readBufOk (getMem32RxLen (4 * k))) ∧ readBufOk fixedRxLen := by
  refine ⟨by decide, rfl, by decide, fun mem => ?_, fun k => ?_, by decide⟩
  · unfold getMem16
    rw [if_pos (by decide)]
    rfl
  · unfold readBufOk getMem32RxLen
    rcases Nat.le_total (4 * k) 64 with h | h
    · rw [Nat.max_eq_right h]
      norm_num
    · rw [Nat.max_eq_left h]
      omega

/-- Every store `send_command` issues lies inside the command-buffer data
region or inside the 16-byte header. -/
theorem sendCommandStores_sub (cba : Nat) (info : CommandBufferInfo) (cmd : Command)
    (hback : info.back < info.capacity)
    (hdatafit : info.data_addr + 8 * info.capacity ≤ 2 ^ 32)
    (hcbfit : cba + 16 ≤ 2 ^ 32) :
    ∀ w ∈ sendCommandStores cba info cmd,
      (info.data_addr ≤ w.addr ∧ w.addr + w.data.length ≤ info.data_addr + 8 * info.capacity) ∨
      (cba ≤ w.addr ∧ w.addr + w.data.length ≤ cba + 16) := by
  intro w hw
  unfold sendCommandStores send_command at hw
  rw [if_neg (show ¬ info.capacity = 0 by omega)] at hw
  by_cases h : (info.back + 1) % 2 ^ 32 % info.capacity ≠ info.front
  · rw [if_pos h] at hw
    unfold writeStructArrayOffsetWrites at hw
    rw [writeChunks_small _ _ (by rw [encodeCommand_length]; decide),
      writeChunks_small _ _ (by rw [le32_length]; decide)] at hw
    rw [Nat.mod_eq_of_lt (show info.data_addr + info.back * 8 < 2 ^ 32 by omega)] at hw
    rw [Nat.mod_eq_of_lt (show cba + 1 * 4 < 2 ^ 32 by omega)] at hw
    simp only [List.cons_append, List.nil_append, List.mem_cons, List.mem_singleton] at hw
    rcases hw with rfl | rfl | hw
    · left
      constructor
      · show info.data_addr ≤ info.data_addr + info.back * 8
        omega
      · show info.data_addr + info.back * 8 + (encodeCommand cmd).length ≤ _
        rw [encodeCommand_length]
        omega
    · right
      constructor
      · show cba ≤ cba + 1 * 4
        omega
      · show cba + 1 * 4 +
          (le32 ((info.back + 1) % 2 ^ 32 % info.capacity)).length ≤ cba + 16
        rw [le32_length]
        omega
    · cases hw
  · rw [if_neg h] at hw
    simp at hw

/-- No store issued while processing a single `InterfaceCommand` covers the
oscilloscope header's recording-flag byte, under the standard layout
assumptions (regions disjoint from the flag, in-range offsets and indices). -/
theorem processCommand_store_miss (base : ControllerPointers) (info : CommandBufferInfo)
    (oscAddr : Nat)
    (hsc : oscAddr < base.servo_config_addr ∨ base.servo_config_addr + 56 ≤ oscAddr)
    (hscfit : base.servo_config_addr + 56 ≤ 2 ^ 32)
    (hcb : oscAddr < base.command_buffer_addr ∨ base.command_buffer_addr + 16 ≤ oscAddr)
    (hcbfit : base.command_buffer_addr + 16 ≤ 2 ^ 32)
    (hdata : oscAddr < info.data_addr ∨ info.data_addr + 8 * info.capacity ≤ oscAddr)
    (hdatafit : info.data_addr + 8 * info.capacity ≤ 2 ^ 32)
    (hback : info.back < info.capacity) :
    ∀ (record : Bool) (c : InterfaceCommand),
      (∀ off value, c = InterfaceCommand.updateConfigParameter off value → off < 14) →
      ∀ w, RemoteOp.store w ∈ (processCommand base info record c).2 →
        ¬ (w.addr ≤ oscAddr ∧ oscAddr < w.addr + w.data.length) := by
  intro record c hoff w hw
  have hsend : ∀ cmd, RemoteOp.store w ∈
      ((sendCommandStores base.command_buffer_addr info cmd).map RemoteOp.store) →
      ¬ (w.addr ≤ oscAddr ∧ oscAddr < w.addr + w.data.length) := by
    intro cmd hmem hhit
    have hw2 : w ∈ sendCommandStores base.command_buffer_addr info cmd := by
      rcases List.mem_map.mp hmem with ⟨x, hx, hxe⟩
      cases hxe
      exact hx
    rcases sendCommandStores_sub base.command_buffer_addr info cmd hback hdatafit hcbfit
      w hw2 with hin | hin
    · omega
    · omega
  cases c with
  | writeServoConfig cfg =>
    simp only [processCommand, List.mem_singleton] at hw
    cases hw
    intro hhit
    simp only [encodeServoConfig_length] at hhit
    omega
  | startRecording => simp [processCommand] at hw
  | stopRecording => simp [processCommand] at hw
  | stopMotor => exact hsend _ hw
  | startMotor => exact hsend _ hw
  | positionCommand p => exact hsend _ hw
  | updateConfigParameter off value =>
    have hb : off < 14 := hoff off value rfl
    simp only [processCommand] at hw
    unfold writeStructArrayOffsetWrites at hw
    rw [writeChunks_small _ _ (by rw [le32_length]; decide)] at hw
    rw [Nat.mod_eq_of_lt (show base.servo_config_addr + off * 4 < 2 ^ 32 by omega)] at hw
    simp only [List.map_cons, List.map_nil, List.mem_singleton] at hw
    cases hw
    intro hhit
    simp only [le32_length] at hhit
    omega
  | sendCommand cmd => exact hsend _ hw
  | resetController =>
    simp [processCommand] at hw

/-- Claim C9: the oscilloscope header's recording flag is written exactly
once per session, during connection setup, with `recording = true`;
processing `StartRecording` / `StopRecording` only flips the poller's local
`record_samples` flag and issues no remote operation, and no other
`InterfaceCommand`'s remote store touches the recording-flag byte. -/
theorem claim_C9 (base : ControllerPointers) (info : CommandBufferInfo) (oscAddr : Nat)
    (osc : Oscilloscope)
    (hsc : oscAddr < base.servo_config_addr ∨ base.servo_config_addr + 56 ≤ oscAddr)
    (hscfit : base.servo_config_addr + 56 ≤ 2 ^ 32)
    (hcb : oscAddr < base.command_buffer_addr ∨ base.command_buffer_addr + 16 ≤ oscAddr)
    (hcbfit : base.command_buffer_addr + 16 ≤ 2 ^ 32)
    (hdata : oscAddr < info.data_addr ∨ info.data_addr + 8 * info.capacity ≤ oscAddr)
    (hdatafit : info.data_addr + 8 * info.capacity ≤ 2 ^ 32)
    (hback : info.back < info.capacity) :
    (∀ record : Bool,
      processCommand base info record InterfaceCommand.startRecording = (true, []) ∧
      processCommand base info record InterfaceCommand.stopRecording = (false, [])) ∧
    (setupWrites oscAddr osc =
      [⟨oscAddr, encodeOscilloscope { osc with recording := true }⟩] ∧
      (encodeOscilloscope { osc with recording := true }).getD 0 0 = 1) ∧
    (∀ (record : Bool) (cmds : List InterfaceCommand),
      (∀ off value, InterfaceCommand.updateConfigParameter off value ∈ cmds → off < 14) →
      ∀ w, RemoteOp.store w ∈ (processCommands base info record cmds).2 →
        ¬ (w.addr ≤ oscAddr ∧ oscAddr < w.addr + w.data.length)) := by
  refine ⟨fun record => ⟨rfl, rfl⟩, ⟨rfl, rfl⟩, ?_⟩
  intro record cmds
  induction cmds generalizing record with
  | nil =>
    intro _ w hw
    simp [processCommands] at hw
  | cons c cs ih =>
    intro hbound w hw
    simp only [processCommands, List.mem_append] at hw
    rcases hw with hw | hw
    · exact processCommand_store_miss base info oscAddr hsc hscfit hcb hcbfit hdata
        hdatafit hback record c
        (fun off value he => hbound off value (he ▸ List.mem_cons_self c cs)) w hw
    · exact ih _ (fun off value hm => hbound off value (List.mem_cons_of_mem c hm)) w hw

theorem claim_C9_witness :
    processCommand ⟨[], true, 4096, 8192, 12288, 16384, 20480⟩ ⟨0, 3, 8, 16384⟩ true
      InterfaceCommand.startRecording = (true, []) ∧
    processCommand ⟨[], true, 4096, 8192, 12288, 16384, 20480⟩ ⟨0, 3, 8, 16384⟩ true
      InterfaceCommand.stopRecording = (false, []) :=
  (claim_C9 ⟨[], true, 4096, 8192, 12288, 16384, 20480⟩ ⟨0, 3, 8, 16384⟩ 12288
    ⟨false, 0, 1, 1000⟩ (by norm_num) (by norm_num) (by norm_num) (by norm_num)
    (by norm_num) (by norm_num) (by norm_num)).1 true

end ServoTool
